import Mathlib

/-!
Verification development for the pageloadstats library: a fixed-size pool of
phantomjs worker handles (workers_pool.go) and the measurement orchestration
around it (GetMeasurements, try, getMeasurementsInternal). Worker handles
(Go values of type *phantomjs.Phantom, compared by pointer identity) are
modelled as natural numbers with decidable equality. Go error values are
modelled by their message strings, mutation by explicit state passing, and
the external collaborators (url.ParseRequestURI, ioutil.TempFile,
phantom.Run, json.Marshal, json.Unmarshal) by outcome oracles passed in as
parameters, since only their success or failure and the decoded value are
observed by this code.
-/

namespace Pageloadstats

/-- Worker handles are opaque pointers compared by identity; we model them as
naturals with decidable equality. -/
abbrev Phantom := Nat

/-- Message of the error returned by getPhantom when every slot is in use
(workers_pool.go line 40); the PoolExhausted case of the error taxonomy. -/
def poolExhaustedMsg : String := "Could not get phantom process"

/-- Message of the error returned by releasePhantom when the handle matches no
slot (workers_pool.go line 54); the InvalidHandle case of the error taxonomy. -/
def invalidHandleMsg : String := "Could not release phantom process"

/-- Message of the error returned by GetMeasurements when nrOfTries < 1
(part_000 line 111); the InvalidTries case of the error taxonomy. -/
def invalidTriesMsg : String := "You have to specify at least one try to get any result"

/-- Message of the error returned by try when every attempt failed
(part_000 line 143); the PoolExhausted case of the error taxonomy. -/
def maxWaitMsg : String := "Maximum phantom wait time exceeded"

/-- The workersPool struct (workers_pool.go lines 10-15): a slice of in-use
flags, a slice of worker handles and the fixed size. The mutex only serialises
access and has no sequential content, so it is not modelled. -/
structure WorkersPool where
  used : List Bool
  workers : List Phantom
  size : Nat
deriving DecidableEq, Repr

/-- Scan of the loop in getPhantom (workers_pool.go lines 33-38): the first
index k with i ≤ k < size whose in-use flag is false. Reading past the end of
the slice would panic in Go and cannot happen for pools built by New, where
the slice lengths equal size; it is modelled as an unsuccessful scan. -/
def scanFree (used : List Bool) (size i : Nat) : Option Nat :=
  if i < size then
    match used[i]? with
    | some false => some i
    | some true => scanFree used size (i + 1)
    | none => none
  else
    none
termination_by size - i

/-- The getPhantom method (workers_pool.go lines 29-41): mark the first free
slot as in use and return the handle stored there, or fail with the
PoolExhausted error when every slot is in use. -/
def getPhantom (p : WorkersPool) : Except String Phantom × WorkersPool :=
  match scanFree p.used p.size 0 with
  | some i =>
    match p.workers[i]? with
    | some w => (Except.ok w, { p with used := p.used.set i true })
    | none => (Except.error poolExhaustedMsg, p)
  | none => (Except.error poolExhaustedMsg, p)

/-- Scan of the loop in releasePhantom (workers_pool.go lines 47-52): the
first index k with i ≤ k < size whose stored handle is identical to h. -/
def scanHandle (workers : List Phantom) (h : Phantom) (size i : Nat) : Option Nat :=
  if i < size then
    match workers[i]? with
    | some w => if w = h then some i else scanHandle workers h size (i + 1)
    | none => none
  else
    none
termination_by size - i

/-- The releasePhantom method (workers_pool.go lines 43-55): locate the slot
holding the given handle and mark it free unconditionally, or fail with the
InvalidHandle error when no slot holds it, leaving the pool unchanged. -/
def releasePhantom (p : WorkersPool) (h : Phantom) : Except String Unit × WorkersPool :=
  match scanHandle p.workers h p.size 0 with
  | some i => (Except.ok (), { p with used := p.used.set i false })
  | none => (Except.error invalidHandleMsg, p)

/-- The pool built by New (part_000 lines 45-56): size poolSize, every flag
free, and the workers slice filled with the handles the engine produced
(construction aborts on any start failure, so the list is fully populated;
ws is that list and has length poolSize for real pools). -/
def newPool (ws : List Phantom) (poolSize : Nat) : WorkersPool :=
  { used := List.replicate poolSize false, workers := ws, size := poolSize }

/-- One pool transition: some caller runs getPhantom, or releasePhantom with
an arbitrary handle. -/
inductive Step : WorkersPool → WorkersPool → Prop where
  | acquire (p : WorkersPool) : Step p (getPhantom p).2
  | release (p : WorkersPool) (h : Phantom) : Step p (releasePhantom p h).2

/-- Pool states reachable from the pool New builds through any sequence of
getPhantom and releasePhantom calls. -/
def Reachable (ws : List Phantom) (poolSize : Nat) (p : WorkersPool) : Prop :=
  Relation.ReflTransGen Step (newPool ws poolSize) p

/-- Iterated acquisition: n consecutive getPhantom calls, all required to
succeed, with no intervening release. -/
def acquireRun (p : WorkersPool) : Nat → Option WorkersPool
  | 0 => some p
  | n + 1 =>
    match getPhantom p with
    | (Except.ok _, p2) => acquireRun p2 n
    | (Except.error _, _) => none

/-- The RequestMeasurements struct (part_000 lines 26-33). Timestamps are
opaque integers; RunningTime is int64 milliseconds; RunningTimeDuration is a
time.Duration, an int64 count of nanoseconds. -/
structure RequestMeasurements where
  startTime : Int
  endTime : Int
  runningTime : Int
  runningTimeDuration : Int
  status : Int
  url : String
deriving DecidableEq, Repr

/-- The PageMeasurements struct (part_000 lines 17-22). The Responses map
from int32 request id to RequestMeasurements is modelled as an association
list with unique keys; iteration order of a Go map is irrelevant here. -/
structure PageMeasurements where
  loadTime : Int
  responses : List (Int × RequestMeasurements)
  loadTimeDuration : Int
  thumbnailFile : String
deriving DecidableEq, Repr

/-- Wrap of an integer into the int64 range, as Go arithmetic on int64 does. -/
def int64Wrap (x : Int) : Int := (x + 2 ^ 63) % 2 ^ 64 - 2 ^ 63

/-- The expression time.Duration(ms) * time.Millisecond (part_000 lines 169
and 175): the millisecond count times 1000000 nanoseconds, in int64. -/
def durationOfMillis (ms : Int) : Int := int64Wrap (ms * 1000000)

/-- Outcomes of the external collaborators consulted by one call of
getMeasurementsInternal: tempFile is the name ioutil.TempFile produced (or
its error), runResult the success or failure of phantom.Run, marshalResult
of json.Marshal, and unmarshalResult the PageMeasurements value
json.Unmarshal decoded into the zero-initialised performance variable (the
derived duration fields and the thumbnail path are not wire fields, so a
decode of engine output leaves them at their zero values). -/
structure Env where
  tempFile : Except String String
  runResult : Except String Unit
  marshalResult : Except String Unit
  unmarshalResult : Except String PageMeasurements
deriving Repr

/-- The getThumbnailFile function (part_000 lines 181-192): for a non-empty
directory, reserve a temp file and return its name, propagating the TempFile
error; for an empty directory, return the empty path. -/
def getThumbnailFile (thumbnailsDir : String) (tempFile : Except String String) :
    Except String String :=
  if thumbnailsDir.length > 0 then
    match tempFile with
    | Except.error e => Except.error e
    | Except.ok name => Except.ok name
  else
    Except.ok ""

/-- The loop at part_000 lines 174-176: for each entry of the Responses map,
compute the running-time duration into the range variable v. Go range yields
v as a copy of the stored value, so the assignment to v.RunningTimeDuration
updates only that copy and the entry written back here is the original kv. -/
def rangeSetRunningDurations (responses : List (Int × RequestMeasurements)) :
    List (Int × RequestMeasurements) :=
  responses.map (fun kv =>
    let v := kv.2
    let _updated := { v with runningTimeDuration := durationOfMillis v.runningTime }
    kv)

/-- The getMeasurementsInternal function (part_000 lines 146-179): reserve
the thumbnail file, run the engine script, marshal and unmarshal the result,
then set LoadTimeDuration, the thumbnail path when one was reserved, and run
the per-response duration loop. -/
def getMeasurementsInternal (thumbnailsDir : String) (env : Env) :
    Except String PageMeasurements :=
  match getThumbnailFile thumbnailsDir env.tempFile with
  | Except.error e => Except.error e
  | Except.ok thumbnailFile =>
    match env.runResult with
    | Except.error e => Except.error e
    | Except.ok _ =>
      match env.marshalResult with
      | Except.error e => Except.error e
      | Except.ok _ =>
        match env.unmarshalResult with
        | Except.error e => Except.error e
        | Except.ok performance =>
          let performance :=
            { performance with loadTimeDuration := durationOfMillis performance.loadTime }
          let performance :=
            if thumbnailFile.length > 0 then
              { performance with thumbnailFile := thumbnailFile }
            else performance
          let performance :=
            { performance with responses := rangeSetRunningDurations performance.responses }
          Except.ok performance

instance instDecEqExcept {ε α : Type} [DecidableEq ε] [DecidableEq α] :
    DecidableEq (Except ε α) := fun a b =>
  match a, b with
  | Except.ok x, Except.ok y =>
    if h : x = y then isTrue (by rw [h]) else isFalse (by intro hc; cases hc; exact h rfl)
  | Except.ok _, Except.error _ => isFalse (by intro hc; cases hc)
  | Except.error _, Except.ok _ => isFalse (by intro hc; cases hc)
  | Except.error x, Except.error y =>
    if h : x = y then isTrue (by rw [h]) else isFalse (by intro hc; cases hc; exact h rfl)

/-- One observable pool interaction of a GetMeasurements call: a getPhantom
call with its outcome, or a releasePhantom call with its handle and outcome. -/
inductive PoolEvent where
  | acquire (result : Except String Phantom)
  | release (h : Phantom) (result : Except String Unit)
deriving DecidableEq, Repr

/-- The loop of the try function (part_000 lines 131-144), over an abstract
acquisition step fn on state σ, counting down the remaining attempts
(maxTries - attempt + 1 in the source). Returns the result, the final state,
the number of fn calls made and the number of 200 ms sleeps performed: the
loop returns as soon as an attempt succeeds, and sleeps once after every
failed attempt, the last one included. -/
def tryLoop {σ : Type} (fn : σ → Except String Phantom × σ) :
    Nat → σ → Except String Phantom × σ × Nat × Nat
  | 0, s => (Except.error maxWaitMsg, s, 0, 0)
  | n + 1, s =>
    match fn s with
    | (Except.ok res, s2) => (Except.ok res, s2, 1, 0)
    | (Except.error _, s2) =>
      match tryLoop fn n s2 with
      | (r, s3, a, sl) => (r, s3, a + 1, sl + 1)

/-- The try function (part_000 lines 131-144): attempt runs from 1 while
attempt ≤ maxTries, so the body runs max(maxTries, 0) times; a Go int
maxTries below 1 means the loop body never runs and the wait-exceeded error
is returned at once. -/
def tryAcquire {σ : Type} (fn : σ → Except String Phantom × σ) (maxTries : Int) (s : σ) :
    Except String Phantom × σ × Nat × Nat :=
  tryLoop fn maxTries.toNat s

/-- The closure (*loadTimer).getPhantom passed to try (part_000 line 114),
instrumented to record each call as a PoolEvent. -/
def acquireStep (s : WorkersPool × List PoolEvent) :
    Except String Phantom × (WorkersPool × List PoolEvent) :=
  match getPhantom s.1 with
  | (r, p2) => (r, (p2, s.2 ++ [PoolEvent.acquire r]))

/-- The GetMeasurements method (part_000 lines 104-127). parseRequestURI is
the outcome oracle for url.ParseRequestURI on rawurl. Returns the result,
the final pool state, and the trace of pool interactions; the deferred
releasePhantom at line 119 fires on every path after a successful
acquisition, before the method returns. -/
def GetMeasurements (p : WorkersPool) (parseRequestURI : String → Except String Unit)
    (rawurl : String) (nrOfTries : Int) (thumbnailsDir : String) (env : Env) :
    Except String PageMeasurements × WorkersPool × List PoolEvent :=
  match parseRequestURI rawurl with
  | Except.error e => (Except.error e, p, [])
  | Except.ok _ =>
    if nrOfTries < 1 then (Except.error invalidTriesMsg, p, [])
    else
      match tryAcquire acquireStep nrOfTries (p, []) with
      | (Except.error e, (p2, evs), _, _) => (Except.error e, p2, evs)
      | (Except.ok phantom, (p2, evs), _, _) =>
        match getMeasurementsInternal thumbnailsDir env with
        | Except.error e =>
          match releasePhantom p2 phantom with
          | (rr, p3) => (Except.error e, p3, evs ++ [PoolEvent.release phantom rr])
        | Except.ok performance =>
          match releasePhantom p2 phantom with
          | (rr, p3) => (Except.ok performance, p3, evs ++ [PoolEvent.release phantom rr])

/-- A successful scan for a free flag returns the first free index at or
after the start index, and it lies in the scan range. -/
lemma scanFree_some_aux (used : List Bool) (size : Nat) :
    ∀ d i j, size - i ≤ d → scanFree used size i = some j →
      i ≤ j ∧ j < size ∧ used[j]? = some false ∧
      ∀ k, i ≤ k → k < j → used[k]? = some true := by
  intro d
  induction d with
  | zero =>
    intro i j hd h
    rw [scanFree] at h
    have hi : ¬ i < size := by omega
    simp [hi] at h
  | succ d ih =>
    intro i j hd h
    rw [scanFree] at h
    by_cases hi : i < size
    · simp only [if_pos hi] at h
      cases hu : used[i]? with
      | none => simp [hu] at h
      | some b =>
        cases b with
        | false =>
          rw [hu] at h
          simp only [Option.some.injEq] at h
          subst h
          exact ⟨Nat.le_refl _, hi, hu, fun k hk1 hk2 => by omega⟩
        | true =>
          rw [hu] at h
          have hrec := ih (i + 1) j (by omega) h
          refine ⟨by omega, hrec.2.1, hrec.2.2.1, fun k hk1 hk2 => ?_⟩
          rcases Nat.eq_or_lt_of_le hk1 with heq | hlt
          · rw [← heq]; exact hu
          · exact hrec.2.2.2 k hlt hk2
    · simp [hi] at h

/-- Soundness of the free-flag scan, from the start of the slice. -/
lemma scanFree_some (used : List Bool) (size j : Nat)
    (h : scanFree used size 0 = some j) :
    j < size ∧ used[j]? = some false ∧ ∀ k, k < j → used[k]? = some true := by
  have := scanFree_some_aux used size size 0 j (by omega) h
  exact ⟨this.2.1, this.2.2.1, fun k hk => this.2.2.2 k (Nat.zero_le _) hk⟩

/-- The scan finds a free slot whenever one exists in the scan range and the
flag slice covers the scan range up to it. -/
lemma scanFree_isSome_aux (used : List Bool) (size : Nat) :
    ∀ d i k, size - i ≤ d → i ≤ k → k < size → used[k]? = some false →
      ∃ j, scanFree used size i = some j := by
  intro d
  induction d with
  | zero => intro i k hd h1 h2 h3; omega
  | succ d ih =>
    intro i k hd hik hks hkf
    have hi : i < size := by omega
    have hkl : k < used.length := by
      by_contra hc
      rw [List.getElem?_eq_none (by omega)] at hkf
      cases hkf
    have hil : i < used.length := by omega
    rw [scanFree]
    simp only [if_pos hi]
    cases hu : used[i]? with
    | none =>
      rw [List.getElem?_eq_none_iff] at hu
      omega
    | some b =>
      cases b with
      | false => exact ⟨i, rfl⟩
      | true =>
        have hik2 : i + 1 ≤ k := by
          rcases Nat.eq_or_lt_of_le hik with heq | hlt
          · rw [← heq] at hkf; rw [hu] at hkf; cases hkf
          · omega
        exact ih (i + 1) k (by omega) hik2 hks hkf

/-- A scan for a handle returns the first index in range holding it. -/
lemma scanHandle_eq_some_aux (workers : List Phantom) (h : Phantom) (size : Nat) :
    ∀ d i j, size - i ≤ d → i ≤ j → j < size → workers[j]? = some h →
      (∀ k, i ≤ k → k < j → workers[k]? ≠ some h) →
      scanHandle workers h size i = some j := by
  intro d
  induction d with
  | zero => intro i j hd h1 h2 h3 h4; omega
  | succ d ih =>
    intro i j hd hij hjs hjh hfirst
    have hi : i < size := by omega
    have hjl : j < workers.length := by
      by_contra hc
      rw [List.getElem?_eq_none (by omega)] at hjh
      cases hjh
    have hil : i < workers.length := by omega
    rw [scanHandle]
    simp only [if_pos hi]
    cases hu : workers[i]? with
    | none =>
      rw [List.getElem?_eq_none_iff] at hu
      omega
    | some w =>
      rcases Nat.eq_or_lt_of_le hij with heq | hlt
      · subst heq
        rw [hu] at hjh
        simp only [Option.some.injEq] at hjh
        simp [hjh]
      · have hne : w ≠ h := by
          intro hc
          exact hfirst i (Nat.le_refl _) hlt (by rw [hu, hc])
        simp only [if_neg hne]
        exact ih (i + 1) j (by omega) hlt hjs hjh
          (fun k hk1 hk2 => hfirst k (by omega) hk2)

/-- A scan for a handle absent from the slice fails. -/
lemma scanHandle_none_aux (workers : List Phantom) (h : Phantom) (size : Nat)
    (hmem : h ∉ workers) :
    ∀ d i, size - i ≤ d → scanHandle workers h size i = none := by
  intro d
  induction d with
  | zero =>
    intro i hd
    rw [scanHandle]
    have hi : ¬ i < size := by omega
    simp [hi]
  | succ d ih =>
    intro i hd
    rw [scanHandle]
    by_cases hi : i < size
    · simp only [if_pos hi]
      cases hu : workers[i]? with
      | none => rfl
      | some w =>
        have hw : w ∈ workers := List.getElem?_mem hu
        have hne : w ≠ h := fun hc => hmem (hc ▸ hw)
        simp only [if_neg hne]
        exact ih (i + 1) (by omega)
    · simp [hi]

/-- Soundness of the handle scan: a found index is in range and holds the
handle. -/
lemma scanHandle_some_aux (workers : List Phantom) (h : Phantom) (size : Nat) :
    ∀ d i j, size - i ≤ d → scanHandle workers h size i = some j →
      i ≤ j ∧ j < size ∧ workers[j]? = some h := by
  intro d
  induction d with
  | zero =>
    intro i j hd hscan
    rw [scanHandle] at hscan
    have hi : ¬ i < size := by omega
    simp [hi] at hscan
  | succ d ih =>
    intro i j hd hscan
    rw [scanHandle] at hscan
    by_cases hi : i < size
    · simp only [if_pos hi] at hscan
      cases hu : workers[i]? with
      | none => rw [hu] at hscan; cases hscan
      | some w =>
        simp only [hu] at hscan
        by_cases hw : w = h
        · rw [if_pos hw] at hscan
          simp only [Option.some.injEq] at hscan
          subst hscan
          exact ⟨Nat.le_refl _, hi, by rw [hu, hw]⟩
        · rw [if_neg hw] at hscan
          have := ih (i + 1) j (by omega) hscan
          exact ⟨by omega, this.2.1, this.2.2⟩
    · simp [hi] at hscan

/-- Marking a free flag as in use removes exactly one free flag. -/
lemma count_false_set_true : ∀ (l : List Bool) (j : Nat), l[j]? = some false →
    (l.set j true).count false + 1 = l.count false := by
  intro l
  induction l with
  | nil => intro j hj; simp at hj
  | cons b t ih =>
    intro j hj
    cases j with
    | zero =>
      simp only [List.getElem?_cons_zero, Option.some.injEq] at hj
      subst hj
      simp [List.count_cons]
    | succ n =>
      simp only [List.getElem?_cons_succ] at hj
      have := ih n hj
      simp only [List.set_cons_succ, List.count_cons]
      omega

/-- A flag slice with no free flag is all true within its length. -/
lemma count_false_zero_all_true : ∀ (l : List Bool), l.count false = 0 →
    ∀ k, k < l.length → l[k]? = some true := by
  intro l
  induction l with
  | nil => intro h k hk; simp at hk
  | cons b t ih =>
    intro h k hk
    rw [List.count_cons] at h
    cases b with
    | false => simp at h
    | true =>
      cases k with
      | zero => simp
      | succ n =>
        simp only [List.getElem?_cons_succ]
        exact ih (by omega) n (by simpa using hk)

/-- Setting a slot to the value it already holds leaves the slice unchanged. -/
lemma set_of_getElem?_eq {α : Type} : ∀ (l : List α) (j : Nat) (a : α),
    l[j]? = some a → l.set j a = l := by
  intro l
  induction l with
  | nil => intro j a hj; simp at hj
  | cons b t ih =>
    intro j a hj
    cases j with
    | zero =>
      simp only [List.getElem?_cons_zero, Option.some.injEq] at hj
      rw [List.set_cons_zero, hj]
    | succ n =>
      simp only [List.getElem?_cons_succ] at hj
      rw [List.set_cons_succ, ih n a hj]

/-- The getPhantom method never changes the workers slice, the size, or the
length of the flag slice. -/
lemma getPhantom_state (p : WorkersPool) :
    (getPhantom p).2.workers = p.workers ∧ (getPhantom p).2.size = p.size ∧
    (getPhantom p).2.used.length = p.used.length := by
  unfold getPhantom
  cases hs : scanFree p.used p.size 0 with
  | none => simp
  | some i =>
    cases hw : p.workers[i]? with
    | none => simp [hw]
    | some w => simp [hw, List.length_set]

/-- The releasePhantom method never changes the workers slice, the size, or
the length of the flag slice. -/
lemma releasePhantom_state (p : WorkersPool) (h : Phantom) :
    (releasePhantom p h).2.workers = p.workers ∧ (releasePhantom p h).2.size = p.size ∧
    (releasePhantom p h).2.used.length = p.used.length := by
  unfold releasePhantom
  cases hs : scanHandle p.workers h p.size 0 with
  | none => simp
  | some i => simp [List.length_set]

/-- A successful getPhantom call found a free slot, returned the handle
stored there and marked exactly that slot in use. -/
lemma getPhantom_ok (p : WorkersPool) (w : Phantom) (p2 : WorkersPool)
    (h : getPhantom p = (Except.ok w, p2)) :
    ∃ j, scanFree p.used p.size 0 = some j ∧ p.workers[j]? = some w ∧
      p2 = { p with used := p.used.set j true } := by
  unfold getPhantom at h
  cases hs : scanFree p.used p.size 0 with
  | none => rw [hs] at h; cases h
  | some i =>
    rw [hs] at h
    cases hw : p.workers[i]? with
    | none => simp only [hw] at h; cases h
    | some w2 =>
      simp only [hw, Prod.mk.injEq, Except.ok.injEq] at h
      exact ⟨i, rfl, by rw [hw, h.1], h.2.symm⟩

/-- A failed getPhantom call returns the PoolExhausted message and leaves the
pool unchanged. -/
lemma getPhantom_error (p : WorkersPool) (e : String) (p2 : WorkersPool)
    (h : getPhantom p = (Except.error e, p2)) :
    e = poolExhaustedMsg ∧ p2 = p := by
  unfold getPhantom at h
  cases hs : scanFree p.used p.size 0 with
  | none =>
    rw [hs] at h
    simp only [Prod.mk.injEq, Except.error.injEq] at h
    exact ⟨h.1.symm, h.2.symm⟩
  | some i =>
    rw [hs] at h
    cases hw : p.workers[i]? with
    | none =>
      simp only [hw, Prod.mk.injEq, Except.error.injEq] at h
      exact ⟨h.1.symm, h.2.symm⟩
    | some w2 => simp only [hw] at h; cases h

/-- A successful releasePhantom call found the slot holding the handle and
marked exactly that slot free. -/
lemma releasePhantom_ok (p : WorkersPool) (h : Phantom) (q : WorkersPool)
    (hrel : releasePhantom p h = (Except.ok (), q)) :
    ∃ i, scanHandle p.workers h p.size 0 = some i ∧
      q = { p with used := p.used.set i false } := by
  unfold releasePhantom at hrel
  cases hs : scanHandle p.workers h p.size 0 with
  | none => rw [hs] at hrel; cases hrel
  | some i =>
    rw [hs] at hrel
    simp only [Prod.mk.injEq] at hrel
    exact ⟨i, rfl, hrel.2.symm⟩

/-- Through n successful acquisitions the workers slice, the size and the
flag-slice length are unchanged and the free-flag count drops by exactly n. -/
lemma acquireRun_spec : ∀ (n : Nat) (p q : WorkersPool), acquireRun p n = some q →
    q.workers = p.workers ∧ q.size = p.size ∧ q.used.length = p.used.length ∧
    q.used.count false + n = p.used.count false := by
  intro n
  induction n with
  | zero =>
    intro p q h
    simp only [acquireRun, Option.some.injEq] at h
    subst h
    exact ⟨rfl, rfl, rfl, rfl⟩
  | succ m ih =>
    intro p q h
    simp only [acquireRun] at h
    cases hg : getPhantom p with
    | mk r p2 =>
      rw [hg] at h
      cases r with
      | error e => cases h
      | ok w =>
        have hrec := ih p2 q h
        obtain ⟨j, hscan, hwj, hp2⟩ := getPhantom_ok p w p2 hg
        have hfree : p.used[j]? = some false := (scanFree_some p.used p.size j hscan).2.1
        have hcount : (p.used.set j true).count false + 1 = p.used.count false :=
          count_false_set_true p.used j hfree
        subst hp2
        refine ⟨hrec.1, hrec.2.1, ?_, ?_⟩
        · have h5 : q.used.length = (p.used.set j true).length := hrec.2.2.1
          rw [h5]; exact List.length_set ..
        · have h4 : q.used.count false + m = (p.used.set j true).count false := hrec.2.2.2
          omega

/-- Behaviour of the retry loop body: never more attempts than remain, at
least one attempt when any remains, one sleep per failed attempt (success
skips the final sleep), and on total failure the wait-exceeded error after
exactly as many attempts and sleeps as remained. -/
lemma tryLoop_spec {σ : Type} (fn : σ → Except String Phantom × σ) :
    ∀ (n : Nat) (s : σ) (r : Except String Phantom) (s2 : σ) (a sl : Nat),
      tryLoop fn n s = (r, s2, a, sl) →
      a ≤ n ∧ (1 ≤ n → 1 ≤ a) ∧
      (∀ h, r = Except.ok h → sl + 1 = a) ∧
      (∀ e, r = Except.error e → e = maxWaitMsg ∧ a = n ∧ sl = n) := by
  intro n
  induction n with
  | zero =>
    intro s r s2 a sl h
    simp only [tryLoop, Prod.mk.injEq] at h
    obtain ⟨h1, _, h3, h4⟩ := h
    refine ⟨by omega, by omega, ?_, ?_⟩
    · intro hh hr; rw [← h1] at hr; cases hr
    · intro e hr
      rw [← h1] at hr
      simp only [Except.error.injEq] at hr
      exact ⟨hr.symm, by omega, by omega⟩
  | succ m ih =>
    intro s r s2 a sl h
    simp only [tryLoop] at h
    cases hfn : fn s with
    | mk r1 s1 =>
      rw [hfn] at h
      cases r1 with
      | ok res =>
        simp only [Prod.mk.injEq] at h
        obtain ⟨h1, _, h3, h4⟩ := h
        refine ⟨by omega, by omega, fun hh hr => by omega, ?_⟩
        intro e hr
        rw [← h1] at hr
        cases hr
      | error e1 =>
        dsimp only at h
        cases hrec : tryLoop fn m s1 with
        | mk r3 rest =>
          cases rest with
          | mk s3 rest2 =>
            cases rest2 with
            | mk a3 sl3 =>
              rw [hrec] at h
              simp only [Prod.mk.injEq] at h
              obtain ⟨h1, _, h3, h4⟩ := h
              have hm := ih s1 r3 s3 a3 sl3 hrec
              refine ⟨by omega, by omega, ?_, ?_⟩
              · intro hh hr
                rw [← h1] at hr
                have := hm.2.2.1 hh hr
                omega
              · intro e hr
                rw [← h1] at hr
                have := hm.2.2.2 e hr
                exact ⟨this.1, by omega, by omega⟩

/-- A first attempt that succeeds makes the retry loop return at once: one
attempt, no sleep, the handle and state the attempt produced. -/
lemma tryLoop_immediate {σ : Type} (fn : σ → Except String Phantom × σ) (m : Nat)
    (s : σ) (h0 : Phantom) (s2 : σ) (hfn : fn s = (Except.ok h0, s2)) :
    tryLoop fn (m + 1) s = (Except.ok h0, s2, 1, 0) := by
  simp [tryLoop, hfn]

/-- Number of releasePhantom calls for a given handle in an event trace. -/
def releasesOf (h : Phantom) (evs : List PoolEvent) : Nat :=
  evs.countP (fun ev =>
    match ev with
    | PoolEvent.release h2 _ => h2 == h
    | _ => false)

lemma releasesOf_append (h : Phantom) (l1 l2 : List PoolEvent) :
    releasesOf h (l1 ++ l2) = releasesOf h l1 + releasesOf h l2 :=
  List.countP_append ..

lemma releasesOf_of_acquires (h : Phantom) (l : List PoolEvent)
    (hl : ∀ ev ∈ l, ∃ rr, ev = PoolEvent.acquire rr) : releasesOf h l = 0 := by
  refine List.countP_eq_zero.mpr ?_
  intro ev hev
  obtain ⟨rr, hrr⟩ := hl ev hev
  subst hrr
  simp

/-- The retry loop over the instrumented getPhantom closure only appends
acquire events, and an acquire event with a successful outcome can only be
the last attempt, whose handle the loop returns. -/
lemma tryLoop_events : ∀ (n : Nat) (p : WorkersPool) (evs0 : List PoolEvent)
    (r : Except String Phantom) (st : WorkersPool × List PoolEvent) (a sl : Nat),
    tryLoop acquireStep n (p, evs0) = (r, st, a, sl) →
    ∃ tail, st.2 = evs0 ++ tail ∧
      (∀ ev ∈ tail, ∃ rr, ev = PoolEvent.acquire rr) ∧
      (∀ h, PoolEvent.acquire (Except.ok h) ∈ tail → r = Except.ok h) := by
  intro n
  induction n with
  | zero =>
    intro p evs0 r st a sl h
    simp only [tryLoop, Prod.mk.injEq] at h
    refine ⟨[], ?_, ?_, ?_⟩
    · rw [← h.2.1]; simp
    · intro ev hev; cases hev
    · intro h0 hmem; cases hmem
  | succ m ih =>
    intro p evs0 r st a sl h
    simp only [tryLoop] at h
    cases hg : getPhantom p with
    | mk r1 p1 =>
      have hstep : acquireStep (p, evs0) = (r1, (p1, evs0 ++ [PoolEvent.acquire r1])) := by
        simp [acquireStep, hg]
      rw [hstep] at h
      cases r1 with
      | ok h0 =>
        simp only [Prod.mk.injEq] at h
        refine ⟨[PoolEvent.acquire (Except.ok h0)], ?_, ?_, ?_⟩
        · rw [← h.2.1]
        · intro ev hev
          simp only [List.mem_singleton] at hev
          exact ⟨Except.ok h0, hev⟩
        · intro h2 hmem
          simp only [List.mem_singleton, PoolEvent.acquire.injEq, Except.ok.injEq] at hmem
          rw [← h.1, hmem]
      | error e1 =>
        dsimp only at h
        cases hrec : tryLoop acquireStep m (p1, evs0 ++ [PoolEvent.acquire (Except.error e1)]) with
        | mk r3 rest =>
          cases rest with
          | mk st3 rest2 =>
            cases rest2 with
            | mk a3 sl3 =>
              rw [hrec] at h
              simp only [Prod.mk.injEq] at h
              obtain ⟨tail2, htail2, hacq2, hok2⟩ :=
                ih p1 (evs0 ++ [PoolEvent.acquire (Except.error e1)]) r3 st3 a3 sl3 hrec
              refine ⟨PoolEvent.acquire (Except.error e1) :: tail2, ?_, ?_, ?_⟩
              · rw [← h.2.1, htail2]
                simp
              · intro ev hev
                rcases List.mem_cons.mp hev with hev1 | hev2
                · exact ⟨Except.error e1, hev1⟩
                · exact hacq2 ev hev2
              · intro h2 hmem
                rcases List.mem_cons.mp hmem with hmem1 | hmem2
                · cases hmem1
                · rw [← h.1]
                  exact hok2 h2 hmem2

/-- Engine output of the worked example in the spec: loadTime 500 and one
response with id 1, startTime t0 = 0, endTime t0 + 100 ms, runningTime 100,
status 200, url http a; as decoded by json.Unmarshal into the zero-valued
performance variable, the derived duration fields start at zero. -/
def responseC1 : RequestMeasurements :=
  { startTime := 0, endTime := 100, runningTime := 100, runningTimeDuration := 0,
    status := 200, url := "http://a" }

/-- The decoded wire value for that engine output. -/
def decodedC1 : PageMeasurements :=
  { loadTime := 500, responses := [(1, responseC1)], loadTimeDuration := 0,
    thumbnailFile := "" }

/-- External outcomes for the C1 run: no thumbnail directory, the engine and
both JSON steps succeed, and decoding yields decodedC1. -/
def envC1 : Env :=
  { tempFile := Except.ok "", runResult := Except.ok (), marshalResult := Except.ok (),
    unmarshalResult := Except.ok decodedC1 }

/-- What getMeasurementsInternal actually returns on the C1 input: the
loadTimeDuration derived field is set, the stored response entry is not. -/
def parsedC1 : PageMeasurements :=
  { loadTime := 500, responses := [(1, responseC1)], loadTimeDuration := 500000000,
    thumbnailFile := "" }

/-- C1: on the engine output loadTime 500 with one response of runningTime
100, the parser sets loadTimeDuration to 500 ms (500000000 ns) as the claim
states, but the stored map entry keeps runningTimeDuration 0: the duration
computed in the range loop lands in a discarded copy and is never written
back, so the caller does not observe the derived field, contradicting the
claim; 100 ms would be 100000000 ns. -/
theorem c1_running_duration_not_written_back :
    getMeasurementsInternal "" envC1 = Except.ok parsedC1 ∧
    responseC1.runningTimeDuration = 0 ∧
    durationOfMillis 100 = 100000000 ∧ (0 : Int) ≠ durationOfMillis 100 := by
  refine ⟨by decide, by decide, by decide, by decide⟩

/-- C4: when some flag in range is free, getPhantom marks the first free
index in scan order and returns the handle stored at that same index; when
every flag in range is in use, it returns the PoolExhausted error and leaves
the pool, its flags included, unchanged. -/
theorem c4_acquire_first_free (p : WorkersPool)
    (hW : p.workers.length = p.size) :
    ((∃ k, k < p.size ∧ p.used[k]? = some false) →
      ∃ j w, j < p.size ∧ p.used[j]? = some false ∧
        (∀ k, k < j → p.used[k]? = some true) ∧ p.workers[j]? = some w ∧
        getPhantom p = (Except.ok w, { p with used := p.used.set j true })) ∧
    ((∀ k, k < p.size → p.used[k]? = some true) →
      getPhantom p = (Except.error poolExhaustedMsg, p)) := by
  constructor
  · rintro ⟨k, hk, hkf⟩
    obtain ⟨j, hj⟩ :=
      scanFree_isSome_aux p.used p.size p.size 0 k (by omega) (Nat.zero_le _) hk hkf
    obtain ⟨hjs, hjf, hfirst⟩ := scanFree_some p.used p.size j hj
    have hjw : j < p.workers.length := by omega
    have hw : p.workers[j]? = some (p.workers.get ⟨j, hjw⟩) := List.getElem?_eq_getElem hjw
    refine ⟨j, p.workers.get ⟨j, hjw⟩, hjs, hjf, hfirst, hw, ?_⟩
    unfold getPhantom
    simp only [hj, hw]
  · intro hall
    cases hs : scanFree p.used p.size 0 with
    | none => unfold getPhantom; simp only [hs]
    | some j =>
      obtain ⟨hjs, hjf, _⟩ := scanFree_some p.used p.size j hs
      have := hall j hjs
      rw [this] at hjf
      cases hjf

/-- C5: releasing a handle that is not identical to any handle stored in the
pool fails with the InvalidHandle error and leaves the whole pool, flags and
handle slice included, unchanged. -/
theorem c5_release_foreign_handle (p : WorkersPool) (h : Phantom)
    (hmem : h ∉ p.workers) :
    releasePhantom p h = (Except.error invalidHandleMsg, p) := by
  unfold releasePhantom
  simp only [scanHandle_none_aux p.workers h p.size hmem p.size 0 (by omega)]

/-- C8: releasing an in-pool handle whose flag is already free succeeds and
leaves the pool, that flag included, exactly as it was: release is a silent
idempotent no-op on in-pool handles with a free flag. -/
theorem c8_release_free_is_noop (p : WorkersPool) (h : Phantom) (i : Nat)
    (hnd : p.workers.Nodup) (hiz : i < p.size) (hw : p.workers[i]? = some h)
    (hf : p.used[i]? = some false) :
    releasePhantom p h = (Except.ok (), p) := by
  have hil : i < p.workers.length := by
    by_contra hc
    rw [List.getElem?_eq_none (by omega)] at hw
    cases hw
  have hscan : scanHandle p.workers h p.size 0 = some i := by
    apply scanHandle_eq_some_aux p.workers h p.size p.size 0 i (by omega)
      (Nat.zero_le _) hiz hw
    intro k hk1 hk2 hkh
    have hkl : k < p.workers.length := by omega
    have : k = i := List.getElem?_inj hkl hnd (by rw [hkh, hw])
    omega
  unfold releasePhantom
  simp only [hscan]
  rw [set_of_getElem?_eq p.used i false hf]

/-- C9: in a pool with pairwise distinct handles, a successful acquisition
followed by a release of the returned handle restores the pool, flag slice
included, to exactly the state before the acquisition. -/
theorem c9_acquire_release_round_trip (p p2 : WorkersPool) (h : Phantom)
    (hnd : p.workers.Nodup) (hacq : getPhantom p = (Except.ok h, p2)) :
    releasePhantom p2 h = (Except.ok (), p) := by
  obtain ⟨j, hscanF, hwj, hp2⟩ := getPhantom_ok p h p2 hacq
  obtain ⟨hjs, hjf, _⟩ := scanFree_some p.used p.size j hscanF
  have hjl : j < p.workers.length := by
    by_contra hc
    rw [List.getElem?_eq_none (by omega)] at hwj
    cases hwj
  have hscan : scanHandle p.workers h p.size 0 = some j := by
    apply scanHandle_eq_some_aux p.workers h p.size p.size 0 j (by omega)
      (Nat.zero_le _) hjs hwj
    intro k hk1 hk2 hkh
    have hkl : k < p.workers.length := by omega
    have : k = j := List.getElem?_inj hkl hnd (by rw [hkh, hwj])
    omega
  subst hp2
  unfold releasePhantom
  dsimp only
  simp only [hscan]
  rw [List.set_set, set_of_getElem?_eq p.used j false hjf]

/-- C2: in every pool state reachable from construction with size N through
any sequence of getPhantom and releasePhantom calls, the flag slice and the
handle slice keep length N (and the size stays N), at most N flags are in
use; and from any such state, after N consecutive successful acquisitions
the next getPhantom fails with the PoolExhausted error leaving the state
unchanged (so it keeps failing), while any successful release makes the next
getPhantom succeed again. -/
theorem c2_pool_invariants (N : Nat) (ws : List Phantom) (hws : ws.length = N)
    (p : WorkersPool) (hp : Reachable ws N p) :
    (p.used.length = N ∧ p.workers.length = N ∧ p.size = N ∧
      p.used.count true ≤ N) ∧
    (∀ q, acquireRun p N = some q →
      getPhantom q = (Except.error poolExhaustedMsg, q) ∧
      ∀ h q2, releasePhantom q h = (Except.ok (), q2) →
        ∃ h2 q3, getPhantom q2 = (Except.ok h2, q3)) := by
  have hinv : p.used.length = N ∧ p.workers.length = N ∧ p.size = N := by
    induction hp with
    | refl => exact ⟨List.length_replicate .., hws, rfl⟩
    | @tail b c hab hbc ih =>
      cases hbc with
      | acquire =>
        have hst := getPhantom_state b
        exact ⟨by rw [hst.2.2]; exact ih.1, by rw [hst.1]; exact ih.2.1,
          by rw [hst.2.1]; exact ih.2.2⟩
      | release h =>
        have hst := releasePhantom_state b h
        exact ⟨by rw [hst.2.2]; exact ih.1, by rw [hst.1]; exact ih.2.1,
          by rw [hst.2.1]; exact ih.2.2⟩
  obtain ⟨hUl, hWl, hSz⟩ := hinv
  refine ⟨⟨hUl, hWl, hSz, ?_⟩, ?_⟩
  · calc p.used.count true ≤ p.used.length := List.count_le_length ..
      _ = N := hUl
  · intro q hrun
    obtain ⟨hqw, hqs, hqlen, hqcount⟩ := acquireRun_spec N p q hrun
    have hcZero : q.used.count false = 0 := by
      have h1 : p.used.count false ≤ p.used.length := List.count_le_length ..
      omega
    have hall : ∀ k, k < q.used.length → q.used[k]? = some true :=
      count_false_zero_all_true q.used hcZero
    constructor
    · cases hs : scanFree q.used q.size 0 with
      | some j =>
        obtain ⟨hjs, hjf, _⟩ := scanFree_some q.used q.size j hs
        have hjt := hall j (by omega)
        rw [hjt] at hjf
        cases hjf
      | none => unfold getPhantom; simp only [hs]
    · intro h q2 hrel
      obtain ⟨i, hscan, hq2⟩ := releasePhantom_ok q h q2 hrel
      obtain ⟨_, his, _⟩ := scanHandle_some_aux q.workers h q.size q.size 0 i (by omega) hscan
      have hil : i < q.used.length := by omega
      have hfree : q2.used[i]? = some false := by
        rw [hq2]
        dsimp only
        rw [List.getElem?_set_self]
        omega
      have hq2s : q2.size = q.size := by rw [hq2]
      have hq2w : q2.workers = q.workers := by rw [hq2]
      have hq2l : q2.used.length = q.used.length := by
        rw [hq2]
        dsimp only
        exact List.length_set ..
      obtain ⟨j, hj⟩ := scanFree_isSome_aux q2.used q2.size q2.size 0 i (by omega)
        (Nat.zero_le _) (by omega) hfree
      obtain ⟨hjs, hjf, _⟩ := scanFree_some q2.used q2.size j hj
      have hqwl : q.workers.length = N := by rw [hqw]; exact hWl
      have hjw : j < q2.workers.length := by rw [hq2w]; omega
      have hw : q2.workers[j]? = some (q2.workers.get ⟨j, hjw⟩) := List.getElem?_eq_getElem hjw
      refine ⟨q2.workers.get ⟨j, hjw⟩, { q2 with used := q2.used.set j true }, ?_⟩
      unfold getPhantom
      simp only [hj, hw]

/-- C6: with maxTries at least 1 the retry loop makes at least one and at
most maxTries acquisition attempts; a first attempt that succeeds makes it
return that handle at once with a single attempt and no sleep; every failed
attempt is followed by one 200 ms sleep (on eventual success the sleeps are
the attempts minus one); and when every attempt fails it returns the
PoolExhausted wait-exceeded error after exactly maxTries attempts. -/
theorem c6_retry_policy {σ : Type} (fn : σ → Except String Phantom × σ)
    (maxTries : Int) (h1 : 1 ≤ maxTries) (s : σ) :
    (1 ≤ (tryAcquire fn maxTries s).2.2.1 ∧
      (tryAcquire fn maxTries s).2.2.1 ≤ maxTries.toNat) ∧
    (∀ h0 s2, fn s = (Except.ok h0, s2) →
      tryAcquire fn maxTries s = (Except.ok h0, s2, 1, 0)) ∧
    (∀ h0, (tryAcquire fn maxTries s).1 = Except.ok h0 →
      (tryAcquire fn maxTries s).2.2.2 + 1 = (tryAcquire fn maxTries s).2.2.1) ∧
    (∀ e, (tryAcquire fn maxTries s).1 = Except.error e →
      e = maxWaitMsg ∧ (tryAcquire fn maxTries s).2.2.1 = maxTries.toNat) := by
  have hn : 1 ≤ maxTries.toNat := by omega
  obtain ⟨m, hm⟩ : ∃ m, maxTries.toNat = m + 1 := ⟨maxTries.toNat - 1, by omega⟩
  cases htl : tryLoop fn maxTries.toNat s with
  | mk r rest =>
    cases rest with
    | mk s2 rest2 =>
      cases rest2 with
      | mk a sl =>
        have hspec := tryLoop_spec fn maxTries.toNat s r s2 a sl htl
        have hred : tryAcquire fn maxTries s = (r, s2, a, sl) := by
          unfold tryAcquire
          exact htl
        rw [hred]
        refine ⟨⟨hspec.2.1 hn, hspec.1⟩, ?_, ?_, ?_⟩
        · intro h0 s3 hfn
          have himm := tryLoop_immediate fn m s h0 s3 hfn
          rw [← hm] at himm
          rw [← hred]
          unfold tryAcquire
          exact himm
        · intro h0 hr
          exact hspec.2.2.1 h0 hr
        · intro e hr
          have := hspec.2.2.2 e hr
          exact ⟨this.1, this.2.1⟩

/-- C10: with maxTries at least 1, when every acquisition attempt fails the
retry loop sleeps once after every failed attempt, the final one included:
it performs exactly maxTries sleeps, equal to the number of attempts, not
maxTries minus one, before returning the wait-exceeded error. -/
theorem c10_sleeps_after_final_failure {σ : Type} (fn : σ → Except String Phantom × σ)
    (maxTries : Int) (h1 : 1 ≤ maxTries) (s : σ) (e : String)
    (hfail : (tryAcquire fn maxTries s).1 = Except.error e) :
    (tryAcquire fn maxTries s).2.2.2 = maxTries.toNat ∧
    (tryAcquire fn maxTries s).2.2.2 = (tryAcquire fn maxTries s).2.2.1 := by
  cases htl : tryLoop fn maxTries.toNat s with
  | mk r rest =>
    cases rest with
    | mk s2 rest2 =>
      cases rest2 with
      | mk a sl =>
        have hspec := tryLoop_spec fn maxTries.toNat s r s2 a sl htl
        have hred : tryAcquire fn maxTries s = (r, s2, a, sl) := by
          unfold tryAcquire
          exact htl
        rw [hred] at hfail ⊢
        have := hspec.2.2.2 e hfail
        exact ⟨this.2.2, by show sl = a; omega⟩

/-- C7: when url.ParseRequestURI rejects the raw url, GetMeasurements
returns that error, and when it accepts the url but nrOfTries < 1, it
returns the InvalidTries error; in both cases the pool state is returned
untouched and the event trace is empty, so getPhantom was never called. -/
theorem c7_validation_before_acquire (p : WorkersPool)
    (pr : String → Except String Unit) (rawurl : String) (nrOfTries : Int)
    (dir : String) (env : Env) :
    (∀ e, pr rawurl = Except.error e →
      GetMeasurements p pr rawurl nrOfTries dir env = (Except.error e, p, [])) ∧
    (pr rawurl = Except.ok () → nrOfTries < 1 →
      GetMeasurements p pr rawurl nrOfTries dir env =
        (Except.error invalidTriesMsg, p, [])) := by
  constructor
  · intro e he
    unfold GetMeasurements
    rw [he]
  · intro hok htries
    unfold GetMeasurements
    rw [hok]
    simp only [if_pos htries]

/-- A trace of acquire events followed by one release of h holds exactly one
release of h. -/
lemma releasesOf_one_release (h : Phantom) (evs : List PoolEvent)
    (rr : Except String Unit)
    (hallacq : ∀ ev ∈ evs, ∃ r2, ev = PoolEvent.acquire r2) :
    releasesOf h (evs ++ [PoolEvent.release h rr]) = 1 := by
  rw [releasesOf_append, releasesOf_of_acquires h evs hallacq]
  simp [releasesOf]

/-- C3: whenever a GetMeasurements call successfully acquires a worker
handle (an acquire event with a successful outcome occurs in its trace),
exactly one releasePhantom call for that handle appears in the trace before
the call returns, whatever the outcomes of thumbnail creation, engine
execution, marshalling and unmarshalling were. -/
theorem c3_exactly_one_release (p : WorkersPool)
    (pr : String → Except String Unit) (rawurl : String) (nrOfTries : Int)
    (dir : String) (env : Env) (h : Phantom)
    (hacq : PoolEvent.acquire (Except.ok h) ∈
      (GetMeasurements p pr rawurl nrOfTries dir env).2.2) :
    releasesOf h (GetMeasurements p pr rawurl nrOfTries dir env).2.2 = 1 := by
  unfold GetMeasurements at hacq ⊢
  cases hpr : pr rawurl with
  | error e =>
    rw [hpr] at hacq
    simp at hacq
  | ok u =>
    cases u
    rw [hpr] at hacq
    dsimp only at hacq ⊢
    by_cases ht : nrOfTries < 1
    · rw [if_pos ht] at hacq
      simp at hacq
    · rw [if_neg ht] at hacq ⊢
      cases htry : tryAcquire acquireStep nrOfTries (p, []) with
      | mk r rest =>
        cases rest with
        | mk st rest2 =>
          cases st with
          | mk p2 evs =>
            cases rest2 with
            | mk a sl =>
              rw [htry] at hacq
              obtain ⟨tail, htail, hallacq, hok⟩ :=
                tryLoop_events nrOfTries.toNat p [] r (p2, evs) a sl htry
              simp only [List.nil_append] at htail
              have hevs : evs = tail := htail
              subst hevs
              cases r with
              | error e =>
                dsimp only at hacq
                have := hok h hacq
                cases this
              | ok phantom =>
                dsimp only at hacq ⊢
                cases hint : getMeasurementsInternal dir env with
                | error e2 =>
                  rw [hint] at hacq
                  dsimp only at hacq ⊢
                  cases hrel : releasePhantom p2 phantom with
                  | mk rr p3 =>
                    dsimp only at hacq ⊢
                    rcases List.mem_append.mp hacq with hm | hm
                    · have := hok h hm
                      simp only [Except.ok.injEq] at this
                      rw [this]
                      exact releasesOf_one_release h evs rr hallacq
                    · simp at hm
                | ok perf2 =>
                  rw [hint] at hacq
                  dsimp only at hacq ⊢
                  cases hrel : releasePhantom p2 phantom with
                  | mk rr p3 =>
                    dsimp only at hacq ⊢
                    rcases List.mem_append.mp hacq with hm | hm
                    · have := hok h hm
                      simp only [Except.ok.injEq] at this
                      rw [this]
                      exact releasesOf_one_release h evs rr hallacq
                    · simp at hm

/-- External outcomes where every collaborator succeeds and decoding yields
an empty measurement record; used to exercise concrete runs. -/
def envSimple : Env :=
  { tempFile := Except.ok "", runResult := Except.ok (), marshalResult := Except.ok (),
    unmarshalResult := Except.ok
      { loadTime := 0, responses := [], loadTimeDuration := 0, thumbnailFile := "" } }

/-- Concrete url.ParseRequestURI oracle accepting exactly the url http a. -/
def prW : String → Except String Unit := fun s =>
  if s = "http://a" then Except.ok () else Except.error "invalid URI"

/-- Witness for C2 at a fresh pool of size 1 with handle 5: the invariant
holds there, and after the one successful acquisition the next getPhantom
fails with PoolExhausted leaving the state unchanged. -/
theorem c2_pool_invariants_witness :
    ((newPool [5] 1).used.length = 1 ∧ (newPool [5] 1).used.count true ≤ 1) ∧
    getPhantom ⟨[true], [5], 1⟩ =
      (Except.error poolExhaustedMsg, (⟨[true], [5], 1⟩ : WorkersPool)) := by
  have hmain := c2_pool_invariants 1 [5] rfl (newPool [5] 1) Relation.ReflTransGen.refl
  refine ⟨⟨hmain.1.1, hmain.1.2.2.2⟩, ?_⟩
  have hrun : acquireRun (newPool [5] 1) 1 = some ⟨[true], [5], 1⟩ := by
    simp [acquireRun, getPhantom, newPool, scanFree]
  exact (hmain.2 ⟨[true], [5], 1⟩ hrun).1

/-- Witness for C3: a run on a fresh pool of size 1 with handle 5, a valid
url and one try acquires handle 5 and releases it exactly once. -/
theorem c3_exactly_one_release_witness :
    releasesOf 5 (GetMeasurements (newPool [5] 1) prW "http://a" 1 "" envSimple).2.2 = 1 := by
  apply c3_exactly_one_release
  have hev : (GetMeasurements (newPool [5] 1) prW "http://a" 1 "" envSimple).2.2 =
      [PoolEvent.acquire (Except.ok 5), PoolEvent.release 5 (Except.ok ())] := by
    simp [GetMeasurements, prW, tryAcquire, tryLoop, acquireStep, getPhantom, newPool,
      scanFree, getMeasurementsInternal, getThumbnailFile, releasePhantom, scanHandle,
      envSimple, rangeSetRunningDurations]
  rw [hev]
  decide

/-- Witness for C4: with flags in-use, free the pool of size 2 hands out the
slot-1 handle, and the fully used pool of size 1 is exhausted unchanged. -/
theorem c4_acquire_first_free_witness :
    getPhantom ⟨[true], [7], 1⟩ =
      (Except.error poolExhaustedMsg, (⟨[true], [7], 1⟩ : WorkersPool)) ∧
    (∃ j w, j < 2 ∧ ([true, false] : List Bool)[j]? = some false ∧
      (∀ k, k < j → ([true, false] : List Bool)[k]? = some true) ∧
      ([7, 8] : List Phantom)[j]? = some w ∧
      getPhantom ⟨[true, false], [7, 8], 2⟩ =
        (Except.ok w, { used := ([true, false] : List Bool).set j true,
                        workers := ([7, 8] : List Phantom), size := 2 })) := by
  constructor
  · exact (c4_acquire_first_free ⟨[true], [7], 1⟩ rfl).2 (by decide)
  · exact (c4_acquire_first_free ⟨[true, false], [7, 8], 2⟩ rfl).1 ⟨1, by decide, by decide⟩

/-- Witness for C5: releasing handle 9, foreign to a pool holding only
handle 7, fails with InvalidHandle and changes nothing. -/
theorem c5_release_foreign_handle_witness :
    releasePhantom ⟨[true], [7], 1⟩ 9 =
      (Except.error invalidHandleMsg, (⟨[true], [7], 1⟩ : WorkersPool)) :=
  c5_release_foreign_handle ⟨[true], [7], 1⟩ 9 (by decide)

/-- Witness for C6: an immediately successful attempt returns at once after
one attempt and no sleep, and with two attempts that both fail the loop
stops after exactly two attempts. -/
theorem c6_retry_policy_witness :
    tryAcquire (fun s : Unit => (Except.ok 7, s)) 3 () = (Except.ok 7, (), 1, 0) ∧
    (tryAcquire (fun s : Unit => (Except.error poolExhaustedMsg, s)) 2 ()).2.2.1 = 2 := by
  constructor
  · exact (c6_retry_policy (fun s : Unit => (Except.ok 7, s)) 3 (by decide) ()).2.1 7 () rfl
  · exact ((c6_retry_policy (fun s : Unit => (Except.error poolExhaustedMsg, s)) 2
      (by decide) ()).2.2.2 maxWaitMsg rfl).2

/-- Witness for C7: a rejected url yields its parse error with no pool
interaction, and a valid url with zero tries yields InvalidTries with no
pool interaction. -/
theorem c7_validation_before_acquire_witness :
    GetMeasurements (newPool [5] 1) prW "nota url" 3 "" envSimple =
      (Except.error "invalid URI", newPool [5] 1, []) ∧
    GetMeasurements (newPool [5] 1) prW "http://a" 0 "" envSimple =
      (Except.error invalidTriesMsg, newPool [5] 1, []) := by
  constructor
  · exact (c7_validation_before_acquire (newPool [5] 1) prW "nota url" 3 "" envSimple).1
      "invalid URI" (by decide)
  · exact (c7_validation_before_acquire (newPool [5] 1) prW "http://a" 0 "" envSimple).2
      (by decide) (by decide)

/-- Witness for C8: releasing the already-free in-pool handle 5 succeeds and
leaves the pool exactly as it was. -/
theorem c8_release_free_is_noop_witness :
    releasePhantom ⟨[false], [5], 1⟩ 5 = (Except.ok (), (⟨[false], [5], 1⟩ : WorkersPool)) :=
  c8_release_free_is_noop ⟨[false], [5], 1⟩ 5 0 (by decide) (by decide) (by decide) (by decide)

/-- Witness for C9: acquiring from the fresh two-slot pool returns handle 3,
and releasing 3 restores the original flag slice. -/
theorem c9_acquire_release_round_trip_witness :
    releasePhantom ⟨[true, false], [3, 4], 2⟩ 3 =
      (Except.ok (), (⟨[false, false], [3, 4], 2⟩ : WorkersPool)) := by
  apply c9_acquire_release_round_trip ⟨[false, false], [3, 4], 2⟩ ⟨[true, false], [3, 4], 2⟩ 3
    (by decide)
  simp [getPhantom, scanFree]

/-- Witness for C10: three attempts that all fail make the loop sleep three
times, once after each failed attempt, the final one included. -/
theorem c10_sleeps_after_final_failure_witness :
    (tryAcquire (fun s : Unit => (Except.error poolExhaustedMsg, s)) 3 ()).2.2.2 = 3 :=
  (c10_sleeps_after_final_failure (fun s : Unit => (Except.error poolExhaustedMsg, s)) 3
    (by decide) () maxWaitMsg rfl).1

end Pageloadstats
